import Mathlib

/-!
Shallow embedding of the PReviewer pull-request review pipeline
(src/previewer: agents/base.py, agents/file_analyzer.py, agents/language_expert.py,
orchestrator.py, utils/github_utils.py) together with theorems settling the
frozen claims about its specification.

Machine-level conventions: Python strings are Lean `String`s (ASCII is what the
pipeline actually handles; `str.lower`/`str.strip`/`str.split` are modelled by
ASCII char-list functions below); `dict.get(k)` returning `None` is an `Option`
field accessor; a raised exception that a caller converts to a message is an
`Except`/`Option` value.
-/

/-- Message kinds, from `MessageType` in agents/base.py. -/
inductive MessageType where
  | file_analysis
  | review_request
  | review
  | report
  | error
  deriving DecidableEq, Repr

/-- The structured review dict produced by `LanguageExpert._review_code`. -/
structure ReviewData where
  review : String
  best_practices_violations : List String
  suggestions : List String
  deriving DecidableEq, Repr

/-- Message payloads (`Message.content` dicts). One constructor per payload shape
that flows through the pipeline; `Option` fields model keys that `dict.get`
may find absent (`None`). `files_by_language` is an insertion-ordered dict,
modelled as an association list. -/
inductive Content where
  | files (files : List String) (pr_number : Option Int)
  | filesByLanguage (files_by_language : List (String × List String)) (pr_number : Option Int)
  | reviewRequest (file_path : Option String) (file_content : Option String) (pr_number : Option Int)
  | reviewPayload (file_path : String) (review : ReviewData) (pr_number : Option Int)
  | reportPayload (report : String) (pr_number : Option Int)
  | errorPayload (error : String)
  deriving DecidableEq, Repr

/-- `Message` from agents/base.py. -/
structure Message where
  type : MessageType
  content : Content
  source : String
  deriving DecidableEq, Repr

/-- Model of `message.content.get('files', [])`. -/
def Content.getFiles : Content → List String
  | .files fs _ => fs
  | _ => []

/-- Model of `message.content.get('pr_number')`. -/
def Content.getPrNumber : Content → Option Int
  | .files _ p => p
  | .filesByLanguage _ p => p
  | .reviewRequest _ _ p => p
  | .reviewPayload _ _ p => p
  | .reportPayload _ p => p
  | .errorPayload _ => none

/-- Model of `message.content.get('files_by_language', {})`. -/
def Content.getFilesByLanguage : Content → List (String × List String)
  | .filesByLanguage m _ => m
  | _ => []

/-- Model of `message.content.get('file_path')`. -/
def Content.getFilePath : Content → Option String
  | .reviewRequest fp _ _ => fp
  | .reviewPayload fp _ _ => some fp
  | _ => none

/-- Model of `message.content.get('file_content')`. -/
def Content.getFileContent : Content → Option String
  | .reviewRequest _ fc _ => fc
  | _ => none

/-- Model of `message.content.get('error', 'Unknown error')`. -/
def Content.getErrorD : Content → String
  | .errorPayload e => e
  | _ => "Unknown error"

/-- Model of `message.content.get('report', '')`. -/
def Content.getReportD : Content → String
  | .reportPayload r _ => r
  | _ => ""

/-- Python truthiness of an optional string (`if not x`): absent and empty are
both falsy. -/
def truthyStr : Option String → Bool
  | none => false
  | some s => s ≠ ""

/-- Python `str.lower` on one ASCII character (the pipeline's data is ASCII). -/
def pyLowerChar (c : Char) : Char :=
  if 'A' ≤ c ∧ c ≤ 'Z' then Char.ofNat (c.toNat + 32) else c

/-- Python `str.lower` (ASCII). -/
def pyLower (s : String) : String := String.mk (s.data.map pyLowerChar)

/-- Python `str.split(sep)` for a one-character separator: `''.split('/') == ['']`,
empty runs between separators are kept. -/
def splitOnChar (c : Char) : List Char → List (List Char)
  | [] => [[]]
  | x :: xs =>
    let r := splitOnChar c xs
    if x = c then [] :: r
    else match r with
      | [] => [[x]]
      | g :: gs => (x :: g) :: gs

/-- Python `str.split('/')` on a string. -/
def pySplitSlash (s : String) : List String :=
  (splitOnChar '/' s.data).map String.mk

/-- Index of the last occurrence of `c` in `s` (Python `str.rfind`, restricted
to found/not-found as used by `os.path.splitext`). -/
def rfindIdx (c : Char) (s : List Char) : Option Nat :=
  ((s.enum.filter (fun p => p.2 = c)).map (fun p => p.1)).getLast?

/-- Extension part of `os.path.splitext(p)` on posix, embedded from CPython
`genericpath._splitext` (`sep='/'`, `extsep='.'`): the extension starts at the
last dot, provided that dot lies in the basename and the basename has a
non-dot character before it (so dotfiles such as `.gitignore` have no
extension). In particular `splitext` keeps only the LAST suffix: the
extension of `a.min.js` is `.js`. -/
def splitextExt (p : String) : String :=
  let cs := p.data
  match rfindIdx '.' cs with
  | none => ""
  | some dotIndex =>
    let fileStart := match rfindIdx '/' cs with
      | none => 0
      | some s => s + 1
    if fileStart ≤ dotIndex then
      if (List.range (dotIndex - fileStart)).any (fun j => cs.getD (fileStart + j) '.' ≠ '.')
      then String.mk (cs.drop dotIndex)
      else ""
    else ""

/-- `FileAnalyzerState.excluded_extensions` (a Python set; order irrelevant). -/
def excluded_extensions : List String :=
  [".png", ".jpg", ".jpeg", ".gif", ".svg", ".ico",
   ".ttf", ".woff", ".woff2", ".eot", ".pdf",
   ".mp3", ".mp4", ".wav", ".avi", ".mov",
   ".zip", ".tar", ".gz", ".rar",
   ".pyc", ".pyo", ".pyd",
   ".map", ".min.js", ".min.css"]

/-- `FileAnalyzerState.excluded_directories`. -/
def excluded_directories : List String :=
  ["node_modules", "dist", "build", "assets",
   "static", "public", "vendor", ".git"]

/-- `FileAnalyzer._is_relevant_file`. -/
def is_relevant_file (file_path : String) : Bool :=
  let ext := pyLower (splitextExt file_path)
  if excluded_extensions.contains ext then false
  else if (pySplitSlash file_path).any
      (fun part => excluded_directories.contains (pyLower part)) then false
  else true

/-- `FileAnalyzer._get_file_extension`. -/
def get_file_extension (file_path : String) : String :=
  pyLower (splitextExt file_path)

/-- One step of the categorisation loop in `FileAnalyzer.process_message`:
`if ext not in fbl: fbl[ext] = []` then `fbl[ext].append(file)`, on an
insertion-ordered dict. -/
def addFileToGroup (m : List (String × List String)) (ext f : String) :
    List (String × List String) :=
  if m.any (fun p => p.1 = ext) then
    m.map (fun p => if p.1 = ext then (p.1, p.2 ++ [f]) else p)
  else m ++ [(ext, [f])]

/-- The `files_by_language` dict built by `FileAnalyzer.process_message`. -/
def groupByLanguage (files : List String) : List (String × List String) :=
  files.foldl (fun m f => addFileToGroup m (get_file_extension f) f) []

/-- Rendering of a `MessageType` as it appears in error strings. -/
def messageTypeStr : MessageType → String
  | .file_analysis => "file_analysis"
  | .review_request => "review_request"
  | .review => "review"
  | .report => "report"
  | .error => "error"

/-- `FileAnalyzer.process_message`. -/
def fileAnalyzer_process (msg : Message) : List Message :=
  match msg.type with
  | .file_analysis =>
    let files := msg.content.getFiles
    let pr_number := msg.content.getPrNumber
    if files.isEmpty then
      [⟨.error, .errorPayload "No files to analyze", "file_analyzer"⟩]
    else
      let relevant_files := files.filter is_relevant_file
      if relevant_files.isEmpty then
        [⟨.error, .errorPayload "No relevant files found", "file_analyzer"⟩]
      else
        [⟨.file_analysis,
          .filesByLanguage (groupByLanguage relevant_files) pr_number,
          "file_analyzer"⟩]
  | t =>
    [⟨.error, .errorPayload ("Unsupported message type: " ++ messageTypeStr t),
      "file_analyzer"⟩]

/-- Spec-side description of the language keys, from the spec's words:
"insertion order of languages is the order in which their first matching file
was encountered" — the distinct values of a list in order of first
occurrence. -/
def occKeys (l : List String) : List String :=
  l.foldl (fun acc e => if e ∈ acc then acc else acc ++ [e]) []

/-- Spec-side description of the grouping (for the refinement claim C6): one
group per distinct extension in first-occurrence order, each group holding
exactly the input files with that extension, in input order. -/
def specGrouping (relevant : List String) : List (String × List String) :=
  (occKeys (relevant.map get_file_extension)).map
    (fun e => (e, relevant.filter (fun f => get_file_extension f = e)))

/-- Python `str.isspace` characters that `str.strip()` removes (ASCII). -/
def pyIsSpace (c : Char) : Bool :=
  c = ' ' || c = '\t' || c = '\n' || c = '\x0d' || c = '\x0b' || c = '\x0c'

/-- Python `str.strip()` (ASCII whitespace). -/
def pyStrip (s : String) : String :=
  String.mk (((s.data.dropWhile pyIsSpace).reverse.dropWhile pyIsSpace).reverse)

/-- List-comprehension idiom `[v.strip() for v in s.split('\n') if v.strip()]`
used on both model responses in language_expert.py. -/
def splitNonblankLines (s : String) : List String :=
  ((splitOnChar '\n' s.data).map (fun l => pyStrip (String.mk l))).filter
    (fun t => t ≠ "")

/-- Python `'\n'.join(l)` and friends. -/
def joinWith (sep : String) : List String → String
  | [] => ""
  | [x] => x
  | x :: y :: xs => x ++ sep ++ joinWith sep (y :: xs)

/-- The extension-to-language table in `LanguageExpert._get_language_name`. -/
def language_map : List (String × String) :=
  [(".py", "Python"), (".js", "JavaScript"), (".ts", "TypeScript"),
   (".tsx", "TypeScript React"), (".jsx", "JavaScript React"),
   (".java", "Java"), (".cpp", "C++"), (".go", "Go"), (".rs", "Rust"),
   (".rb", "Ruby"), (".php", "PHP"), (".cs", "C#")]

/-- `LanguageExpert._get_language_name`: unmapped extensions default to
"Unknown". -/
def get_language_name (ext : String) : String :=
  (language_map.lookup ext).getD "Unknown"

/-- The language-to-checklist table in `LanguageExpert._load_best_practices`. -/
def practices_map : List (String × List String) :=
  [("Python",
    ["Use type hints", "Follow PEP 8", "Use meaningful variable names",
     "Write docstrings", "Handle exceptions properly"]),
   ("JavaScript",
    ["Use const/let instead of var", "Use === instead of ==",
     "Handle promises properly", "Use meaningful variable names",
     "Add proper error handling"]),
   ("TypeScript",
    ["Use proper type annotations", "Avoid any type",
     "Use interfaces for object shapes", "Use enums for constants",
     "Follow naming conventions", "Handle null and undefined properly",
     "Use async/await for asynchronous code",
     "Implement proper error handling"]),
   ("TypeScript React",
    ["Use proper type annotations", "Define prop types using interfaces",
     "Use functional components with hooks",
     "Implement proper error boundaries", "Use proper event handling",
     "Follow React best practices", "Use proper state management",
     "Handle side effects properly", "Implement proper accessibility",
     "Use proper component composition"])]

/-- `LanguageExpert._load_best_practices`: unmapped languages get an empty
checklist. -/
def load_best_practices (language : String) : List String :=
  (practices_map.lookup language).getD []

/-- The language-model client capability (`openai.ChatCompletion.create` at the
adapter boundary): one `complete(system_prompt, user_prompt)` operation that
either returns the response text or fails with an exception message. -/
structure ModelClient where
  complete : String → String → Except String String

/-- System prompt of the free-text review call in `_review_code`. -/
def reviewSystemPrompt (language : String) : String :=
  "You are a senior " ++ language ++ " developer reviewing code.\n" ++
  "Provide a thorough code review focusing on:\n" ++
  "1. Code quality and best practices\n2. Potential bugs or issues\n" ++
  "3. Performance considerations\n4. Security concerns\n" ++
  "5. Improvement suggestions\n\n" ++
  "Format your review in a clear, constructive manner."

/-- User prompt of the free-text review call in `_review_code`. -/
def reviewUserPrompt (language filename code : String) : String :=
  "Review this " ++ language ++ " code from " ++ filename ++ ":\n\n" ++ code

/-- System prompt of `_check_best_practices`, enumerating the fixed checklist. -/
def bpSystemPrompt (language : String) : String :=
  "You are a " ++ language ++ " best practices analyzer. \n" ++
  "Check if the code follows these best practices:\n" ++
  joinWith "\n" ((load_best_practices language).map (fun p => "- " ++ p)) ++
  "\nList only the violations found, be specific."

/-- User prompts of `_check_best_practices` / `_generate_suggestions`
(fenced code block). -/
def codeBlockUserPrompt (label language content : String) : String :=
  label ++ ":\n```" ++ language ++ "\n" ++ content ++ "\n```"

/-- System prompt of `_generate_suggestions`. -/
def sugSystemPrompt (language : String) : String :=
  "You are a " ++ language ++ " code improvement expert. \n" ++
  "Suggest specific improvements to make the code better. \n" ++
  "Focus on maintainability, performance, and readability. \n" ++
  "Be concise and actionable."

/-- `LanguageExpert._review_code` together with its two helpers
`_check_best_practices` and `_generate_suggestions`: three model-client calls
in order; any failure propagates (the Python `raise`) as the `.error` case.
The second component counts the model-client invocations actually made. -/
def review_code (client : ModelClient) (language file_path code : String) :
    Except String ReviewData × Nat :=
  let filename := (pySplitSlash file_path).getLastD ""
  match client.complete (reviewSystemPrompt language)
      (reviewUserPrompt language filename code) with
  | .error e => (.error e, 1)
  | .ok review =>
    match client.complete (bpSystemPrompt language)
        (codeBlockUserPrompt "Code to analyze" language code) with
    | .error e => (.error e, 2)
    | .ok bpText =>
      match client.complete (sugSystemPrompt language)
          (codeBlockUserPrompt "Code to improve" language code) with
      | .error e => (.error e, 3)
      | .ok sugText =>
        (.ok ⟨review, splitNonblankLines bpText, splitNonblankLines sugText⟩, 3)

/-- `LanguageExpert.process_message` for the expert constructed with
`language_extension`, parametrised by the model client. Returns the single
response message and the number of model-client invocations made. The guard
`if not file_path or not file_content` is Python truthiness, so absent and
empty-string fields behave alike. -/
def languageExpert_process (client : ModelClient) (language_extension : String)
    (msg : Message) : Message × Nat :=
  let agent_id := "language_expert_" ++ language_extension
  let language := get_language_name language_extension
  match msg.type with
  | .review_request =>
    let file_path := msg.content.getFilePath
    let file_content := msg.content.getFileContent
    let pr_number := msg.content.getPrNumber
    if truthyStr file_path && truthyStr file_content then
      match review_code client language (file_path.getD "") (file_content.getD "") with
      | (.ok review, n) =>
        (⟨.review, .reviewPayload (file_path.getD "") review pr_number, agent_id⟩, n)
      | (.error e, n) => (⟨.error, .errorPayload e, agent_id⟩, n)
    else
      (⟨.error, .errorPayload "Missing file path or content", agent_id⟩, 0)
  | t =>
    (⟨.error, .errorPayload ("Unsupported message type: " ++ messageTypeStr t),
      agent_id⟩, 0)

/-- Literal matcher: consume `lit` from the front of `cs`, returning the rest
(one regex literal step of `re.search`). -/
def dropLit : List Char → List Char → Option (List Char)
  | [], cs => some cs
  | _ :: _, [] => none
  | l :: ls, c :: cs => if c = l then dropLit ls cs else none

/-- Python `int` of a digit run (regex group `\d+`). -/
def digitsToNat (l : List Char) : Nat :=
  l.foldl (fun n c => n * 10 + (c.toNat - 48)) 0

/-- One attempt of the regex `github\.com/([^/]+)/([^/]+)/pull/(\d+)` anchored
at the head of `cs` (github_utils.extract_repo_info). Because `[^/]+` cannot
cross a slash, each group's extent is forced: group 1 and 2 run to the next
slash, group 3 is the maximal digit run; so the regex engine's backtracking
collapses to this deterministic matcher. -/
def matchPullAt (cs : List Char) : Option (String × String × Nat) :=
  match dropLit "github.com/".data cs with
  | none => none
  | some r1 =>
    let a := r1.takeWhile (fun c => c ≠ '/')
    if a.isEmpty then none
    else
      match dropLit ['/'] (r1.dropWhile (fun c => c ≠ '/')) with
      | none => none
      | some r3 =>
        let b := r3.takeWhile (fun c => c ≠ '/')
        if b.isEmpty then none
        else
          match dropLit "/pull/".data (r3.dropWhile (fun c => c ≠ '/')) with
          | none => none
          | some r5 =>
            let d := r5.takeWhile Char.isDigit
            if d.isEmpty then none
            else some (String.mk a, String.mk b, digitsToNat d)

/-- `re.search` of that pattern: leftmost start position wins. -/
def searchPull : List Char → Option (String × String × Nat)
  | [] => none
  | c :: cs =>
    match matchPullAt (c :: cs) with
    | some r => some r
    | none => searchPull cs

/-- `extract_repo_info` from utils/github_utils.py: the `ValueError` raised on
a failed search is the `.error` case. -/
def extract_repo_info (pr_url : String) : Except String (String × String × Int) :=
  match searchPull pr_url.data with
  | none => .error "Invalid GitHub PR URL"
  | some (owner, repo, n) => .ok (owner, repo, (n : Int))

/-- Spec-side predicate for C5: `s` has a substring of the shape
`github.com/<owner>/<repo>/pull/<digits>` with nonempty slash-free owner and
repo segments and a nonempty digit run. -/
def containsPullPattern (s : String) : Prop :=
  ∃ pre a b d suf : List Char,
    a ≠ [] ∧ b ≠ [] ∧ d ≠ [] ∧
    (∀ c ∈ a, c ≠ '/') ∧ (∀ c ∈ b, c ≠ '/') ∧ (∀ c ∈ d, c.isDigit) ∧
    s.data = pre ++ "github.com/".data ++ a ++ ['/'] ++ b ++
      "/pull/".data ++ d ++ suf

/-- `PRReviewOrchestrator._extract_repo_name`: `parts[3]`/`parts[4]` of the
slash-split URL; the `IndexError` on a short URL is the `none` case. There is
no check that any segment equals `pull`. -/
def extract_repo_name (pr_url : String) : Option String :=
  let parts := pySplitSlash pr_url
  match parts.get? 3, parts.get? 4 with
  | some a, some b => some (a ++ "/" ++ b)
  | _, _ => none

/-- Validity of the digit body of a Python `int` literal after the sign:
digits with single underscores strictly between digits. -/
def pyIntDigitsOK : List Char → Bool
  | [] => true
  | '_' :: c :: rest => c.isDigit && pyIntDigitsOK rest
  | c :: rest => c.isDigit && pyIntDigitsOK rest

/-- Numeric value of such a body (underscores skipped). -/
def pyIntDigitsVal (l : List Char) : Nat :=
  l.foldl (fun n c => if c = '_' then n else n * 10 + (c.toNat - 48)) 0

/-- Python `int(s)` for base 10 on ASCII input: strip whitespace, optional
sign, then a digit run that may contain single interior underscores; anything
else raises `ValueError` (the `none` case). -/
def pyIntParse (s : String) : Option Int :=
  let cs := (pyStrip s).data
  let signed : Int × List Char :=
    match cs with
    | '+' :: r => (1, r)
    | '-' :: r => (-1, r)
    | r => (1, r)
  match signed.2 with
  | [] => none
  | c :: rest =>
    if c.isDigit && pyIntDigitsOK (c :: rest) then
      some (signed.1 * (pyIntDigitsVal (c :: rest) : Int))
    else none

/-- `int(pr_url.split('/')[-1])` as done inline in `review_pr` (and by
`PRReviewOrchestrator._extract_pr_number`); the `ValueError` is `none`. -/
def extract_pr_number (pr_url : String) : Option Int :=
  pyIntParse ((pySplitSlash pr_url).getLastD "")

/-- Modelled from the spec: state of the Report Aggregator (`ReportAnalyzer`,
imported by the orchestrator from agents/report_analyzer.py, which is not
among the sources). Spec section 4.4: `final_reports` maps a pull-request
number to that PR's accumulating report text. The key is the message's
`pr_number` field, hence optional. -/
abbrev ReportState := List (Option Int × String)

/-- Accumulated report text for a PR so far (empty before the first entry). -/
def getAccReport (st : ReportState) (pr : Option Int) : String :=
  (st.lookup pr).getD ""

/-- Overwrite-or-insert on the `final_reports` mapping. -/
def setAccReport (st : ReportState) (pr : Option Int) (s : String) : ReportState :=
  if st.any (fun p => p.1 = pr) then
    st.map (fun p => if p.1 = pr then (p.1, s) else p)
  else st ++ [(pr, s)]

/-- Modelled from the spec: the per-file section the Aggregator appends for one
`Review` message (spec section 4.4 leaves the exact formatting an internal,
deterministic choice: review body, violation list, suggestion list). -/
def formatFileSection (file_path : String) (r : ReviewData) : String :=
  "## " ++ file_path ++ "\n\n" ++ r.review ++ "\n\nBest practice violations:\n" ++
  joinWith "\n" r.best_practices_violations ++ "\n\nSuggestions:\n" ++
  joinWith "\n" r.suggestions ++ "\n\n"

/-- Modelled from the spec: `ReportAnalyzer.process_message`. It consumes a
`Review` message, appends the finding to that PR's accumulated text, and
returns the accumulated text as a `Report` message (the orchestrator iterates
the returned messages and expects `Report` responses there, so the aggregator
answers each `Review` with the report accumulated so far). -/
def reportAnalyzer_process (st : ReportState) (msg : Message) :
    ReportState × List Message :=
  match msg.type with
  | .review =>
    match msg.content with
    | .reviewPayload file_path review pr =>
      let acc := getAccReport st pr ++ formatFileSection file_path review
      (setAccReport st pr acc,
       [⟨.report, .reportPayload acc pr, "report_analyzer"⟩])
    | _ =>
      (st, [⟨.error, .errorPayload "Malformed review message", "report_analyzer"⟩])
  | t =>
    (st, [⟨.error, .errorPayload ("Unsupported message type: " ++ messageTypeStr t),
      "report_analyzer"⟩])

/-- JSON string escaping as in `json.dumps`, restricted to the escapes that
printable-ASCII report text can need. -/
def jsonEscapeChar (c : Char) : List Char :=
  if c = '"' then ['\\', '"']
  else if c = '\\' then ['\\', '\\']
  else if c = '\n' then ['\\', 'n']
  else if c = '\t' then ['\\', 't']
  else if c = '\x0d' then ['\\', 'r']
  else [c]

/-- JSON string escaping lifted to strings. -/
def jsonEscape (s : String) : String :=
  String.mk (s.data.foldr (fun c acc => jsonEscapeChar c ++ acc) [])

/-- The progress event `json.dumps({"type": "review", "message": report})`
emitted by `_handle_file_analysis` for a `Report` response. -/
def jsonReviewMessage (report : String) : String :=
  "\x7b\"type\": \"review\", \"message\": \"" ++ jsonEscape report ++ "\"\x7d"

/-- Events yielded for one response of the report analyzer
(orchestrator.py, the inner `for report_response in report_responses` loop). -/
def reportResponseEvents (m : Message) : List String :=
  match m.type with
  | .report => [jsonReviewMessage m.content.getReportD]
  | .error => ["Error generating report: " ++ m.content.getErrorD]
  | _ => []

/-- The source-control boundary of one run: the changed-file list of the PR
(`get_repo`/`get_pull`/`get_files`, collapsed into one consultation whose
`.error` case is a raised exception), and `get_pr_file_content`, which
returns `None` on any failure and never raises. -/
structure GithubEnv where
  pr_files : Except String (List String)
  file_content : String → Option String

/-- Observable outcome of `review_pr`: the yielded progress events, plus the
number of source-control client consultations made (one for resolving the PR
and its file list, one per `get_pr_file_content` call). -/
structure RunResult where
  events : List String
  sc_calls : Nat
  deriving Repr

/-- A `ReviewRequest` message as the orchestrator builds it. -/
def mkReviewRequest (f c : String) (pr : Option Int) : Message :=
  ⟨.review_request, .reviewRequest (some f) (some c) pr, "orchestrator"⟩

/-- Generator loop combinator: run `g` over `l` threading the aggregator state
and concatenating the yielded events. -/
def foldEvents {α : Type} (g : ReportState → α → ReportState × List String)
    (init : ReportState × List String) (l : List α) : ReportState × List String :=
  l.foldl (fun acc a => let r := g acc.1 a; (r.1, acc.2 ++ r.2)) init

/-- Body of the per-file loop in `_handle_file_analysis`: fetch content (a
falsy result is skipped silently, the `continue`), yield `Analyzing <file>`,
invoke the language expert, then route a `Review` response through the report
analyzer (yielding its report/error events) and an `Error` response to the
progress stream. -/
def handleFile (env : GithubEnv) (client : ModelClient) (pr : Option Int)
    (ext : String) (st : ReportState) (f : String) : ReportState × List String :=
  match env.file_content f with
  | none => (st, [])
  | some content =>
    if content = "" then (st, [])
    else
      let ev0 := ["Analyzing " ++ f]
      let resp := (languageExpert_process client ext (mkReviewRequest f content pr)).1
      match resp.type with
      | .review =>
        let rr := reportAnalyzer_process st resp
        (rr.1, ev0 ++ (rr.2.map reportResponseEvents).flatten)
      | .error =>
        (st, ev0 ++ ["Error analyzing " ++ f ++ ": " ++ resp.content.getErrorD])
      | _ => (st, ev0)

/-- One language group of `_handle_file_analysis`: the group header event,
then the per-file loop (the `LanguageExpert(extension)` constructed per group
is pure in this model, so it appears through `languageExpert_process ext`). -/
def handleGroup (env : GithubEnv) (client : ModelClient) (pr : Option Int)
    (st : ReportState) (ext : String) (files : List String) :
    ReportState × List String :=
  foldEvents (handleFile env client pr ext)
    (st, ["Processing " ++ toString files.length ++ " " ++ ext ++ " files"]) files

/-- `PRReviewOrchestrator._handle_file_analysis`: empty mapping yields nothing,
otherwise the groups are processed in order. -/
def handleFileAnalysis (env : GithubEnv) (client : ModelClient) (pr : Option Int)
    (st : ReportState) (message : Message) : ReportState × List String :=
  let fbl := message.content.getFilesByLanguage
  if fbl.isEmpty then (st, [])
  else foldEvents (fun st p => handleGroup env client pr st p.1 p.2) (st, []) fbl

/-- Number of files across all language groups (each costs one
`get_pr_file_content` call). -/
def totalGroupFiles (fbl : List (String × List String)) : Nat :=
  (fbl.map (fun p => p.2.length)).sum

/-- `PRReviewOrchestrator.review_pr`: the full event stream of one run.
Parsing failures (`IndexError` from `parts[3]`/`parts[4]`, `ValueError` from
`int`) are caught by the surrounding `try`, which yields the error event and
re-raises; they happen before any source-control use, so `sc_calls = 0`
there. The dead `if not response:` branch of the Python source (the file
analyzer always returns exactly one message) is omitted. -/
def review_pr (env : GithubEnv) (client : ModelClient) (pr_url : String) :
    RunResult :=
  let ev0 := ["Initializing PR Review", "Extracting PR information"]
  match extract_repo_name pr_url with
  | none => ⟨ev0 ++ ["Error during PR review: list index out of range"], 0⟩
  | some _repo_name =>
    match extract_pr_number pr_url with
    | none =>
      ⟨ev0 ++ ["Error during PR review: invalid literal for int() with base 10: " ++
        (pySplitSlash pr_url).getLastD ""], 0⟩
    | some pr_number =>
      let ev1 := ev0 ++ ["Fetching PR from GitHub"]
      match env.pr_files with
      | .error e => ⟨ev1 ++ ["Error during PR review: " ++ e], 1⟩
      | .ok files =>
        let ev2 := ev1 ++ ["Fetching PR files"]
        if files.isEmpty then ⟨ev2 ++ ["No files found to analyze"], 1⟩
        else
          let responses := fileAnalyzer_process
            ⟨.file_analysis, .files files (some pr_number), "orchestrator"⟩
          let folded := responses.foldl
            (fun (acc : ReportState × List String) resp =>
              match resp.type with
              | .file_analysis =>
                let hr := handleFileAnalysis env client (some pr_number) acc.1 resp
                (hr.1, acc.2 ++ ["Processing file analysis results"] ++ hr.2)
              | .error =>
                (acc.1, acc.2 ++ ["Error during file analysis: " ++
                  resp.content.getErrorD])
              | _ => acc) ([], [])
          let contentCalls := (responses.map (fun resp =>
            match resp.type with
            | .file_analysis => totalGroupFiles resp.content.getFilesByLanguage
            | _ => 0)).sum
          ⟨ev2 ++ folded.2 ++ ["Review completed successfully"], 1 + contentCalls⟩

/-- Classifier for review-report progress events: exactly the events produced
by `jsonReviewMessage` begin with a brace; every other event of the stream
begins with a letter or digit. -/
def isReviewEvent (ev : String) : Bool :=
  ev.data.head? == some '\x7b'

/-- Per-file success indicator: content fetch returned truthy text and the
language expert answered with a `Review` message. -/
def fileReviewOk (env : GithubEnv) (client : ModelClient) (pr : Option Int)
    (ext : String) (f : String) : Bool :=
  match env.file_content f with
  | none => false
  | some c =>
    if c = "" then false
    else
      match (languageExpert_process client ext (mkReviewRequest f c pr)).1.type with
      | .review => true
      | _ => false

/-- Number of successfully reviewed files of a run, per language group. -/
def successCount (env : GithubEnv) (client : ModelClient) (pr : Option Int)
    (fbl : List (String × List String)) : Nat :=
  (fbl.map (fun p => (p.2.filter (fileReviewOk env client pr p.1)).length)).sum

/-- Claim C1 (code_bug evidence). The Classifier's own `excluded_extensions`
set lists `.min.js`, yet `_is_relevant_file` tests the `os.path.splitext`
extension, which for `app.min.js` is `.js`; so the file list `["app.min.js"]`
— which the claim says yields exactly one Error message and no Dispatcher —
instead survives filtering and produces a `FileAnalysis` message grouping the
file under `.js`, which the orchestrator answers by constructing a `.js`
Dispatcher. -/
theorem C1_minjs_excluded_entry_is_dead :
    ".min.js" ∈ excluded_extensions ∧
    splitextExt "app.min.js" = ".js" ∧
    is_relevant_file "app.min.js" = true ∧
    fileAnalyzer_process
        ⟨.file_analysis, .files ["app.min.js"] (some 7), "orchestrator"⟩ =
      [⟨.file_analysis, .filesByLanguage [(".js", ["app.min.js"])] (some 7),
        "file_analyzer"⟩] :=
  ⟨by decide, by decide, by decide, by decide⟩

/-- Claim C7: a `ReviewRequest` whose `file_path` or `file_content` field is
missing is answered by an immediate Error message, with zero invocations of
the language-model client. -/
theorem C7_missing_field_immediate_error (client : ModelClient)
    (ext src : String) (fp fc : Option String) (pr : Option Int)
    (h : fp = none ∨ fc = none) :
    languageExpert_process client ext
        ⟨.review_request, .reviewRequest fp fc pr, src⟩ =
      (⟨.error, .errorPayload "Missing file path or content",
        "language_expert_" ++ ext⟩, 0) := by
  rcases h with h | h <;> subst h <;>
    simp [languageExpert_process, Content.getFilePath, Content.getFileContent,
      truthyStr]

/-- Witness for C7 at a concrete request with `file_path` absent. -/
theorem C7_witness :
    languageExpert_process ⟨fun _ _ => .ok "fine"⟩ ".py"
        ⟨.review_request, .reviewRequest none (some "print(1)") (some 1),
          "orchestrator"⟩ =
      (⟨.error, .errorPayload "Missing file path or content",
        "language_expert_" ++ ".py"⟩, 0) :=
  C7_missing_field_immediate_error _ _ _ _ _ _ (Or.inl rfl)

/-- Claim C10: a `ReviewRequest` whose `file_content` is present but the empty
string takes the same truthiness guard as an absent field: the same
`Missing file path or content` Error, zero model-client invocations — empty
files are never reviewed. -/
theorem C10_empty_content_same_error (client : ModelClient) (ext src : String)
    (fp : Option String) (pr : Option Int) :
    languageExpert_process client ext
        ⟨.review_request, .reviewRequest fp (some "") pr, src⟩ =
      (⟨.error, .errorPayload "Missing file path or content",
        "language_expert_" ++ ext⟩, 0) := by
  simp [languageExpert_process, Content.getFilePath, Content.getFileContent,
    truthyStr]

/-- Association-list lookup misses every key outside the key column. -/
theorem lookup_eq_none_of_not_mem_keys {β : Type} (l : List (String × β))
    (k : String) (h : k ∉ l.map Prod.fst) : l.lookup k = none := by
  induction l with
  | nil => rfl
  | cons p t ih =>
    simp only [List.map_cons, List.mem_cons, not_or] at h
    rcases p with ⟨a, b⟩
    have hne : (k == a) = false := by
      simp only [beq_eq_false_iff_ne, ne_eq]
      exact h.1
    simp [List.lookup, hne, ih h.2]

/-- The three-call review body always makes at least one model invocation. -/
theorem review_code_calls_pos (client : ModelClient)
    (language file_path code : String) :
    1 ≤ (review_code client language file_path code).2 := by
  unfold review_code
  dsimp only
  rcases h1 : client.complete (reviewSystemPrompt language)
      (reviewUserPrompt language ((pySplitSlash file_path).getLastD "") code) with e | r1
  · simp
  · rcases h2 : client.complete (bpSystemPrompt language)
        (codeBlockUserPrompt "Code to analyze" language code) with e | r2
    · simp
    · rcases h3 : client.complete (sugSystemPrompt language)
          (codeBlockUserPrompt "Code to improve" language code) with e | r3 <;> simp

/-- With a model client that always answers, the review body succeeds after
exactly three calls. -/
theorem review_code_ok_of_total (client : ModelClient)
    (language file_path code : String)
    (h : ∀ s u, ∃ r, client.complete s u = .ok r) :
    ∃ d, review_code client language file_path code = (.ok d, 3) := by
  obtain ⟨r1, h1⟩ := h (reviewSystemPrompt language)
    (reviewUserPrompt language ((pySplitSlash file_path).getLastD "") code)
  obtain ⟨r2, h2⟩ := h (bpSystemPrompt language)
    (codeBlockUserPrompt "Code to analyze" language code)
  obtain ⟨r3, h3⟩ := h (sugSystemPrompt language)
    (codeBlockUserPrompt "Code to improve" language code)
  refine ⟨⟨r1, splitNonblankLines r2, splitNonblankLines r3⟩, ?_⟩
  unfold review_code
  dsimp only
  rw [h1, h2, h3]

/-- Claim C8: the Review Dispatcher answers every input message with exactly
one message — `Review` on success, `Error` otherwise — and every failure of a
model call is converted into an `Error` message carrying the failure text
(the call count records how far the call sequence got) rather than escaping
as an exception. -/
theorem C8_one_message_errors_converted :
    (∀ (client : ModelClient) (ext : String) (msg : Message),
      (languageExpert_process client ext msg).1.type = .review ∨
      (languageExpert_process client ext msg).1.type = .error) ∧
    (∀ (client : ModelClient) (ext src fp fc : String) (pr : Option Int)
      (e : String) (n : Nat),
      fp ≠ "" → fc ≠ "" →
      review_code client (get_language_name ext) fp fc = (.error e, n) →
      languageExpert_process client ext
          ⟨.review_request, .reviewRequest (some fp) (some fc) pr, src⟩ =
        (⟨.error, .errorPayload e, "language_expert_" ++ ext⟩, n)) := by
  constructor
  · intro client ext msg
    rcases msg with ⟨t, c, s⟩
    cases t
    case review_request =>
      simp only [languageExpert_process]
      split
      · split
        · exact Or.inl rfl
        · exact Or.inr rfl
      · exact Or.inr rfl
    all_goals exact Or.inr rfl
  · intro client ext src fp fc pr e n hfp hfc hrc
    have hguard : (truthyStr (some fp) && truthyStr (some fc)) = true := by
      simp [truthyStr, hfp, hfc]
    simp only [languageExpert_process, Content.getFilePath,
      Content.getFileContent, Content.getPrNumber]
    rw [if_pos hguard]
    simp [hrc]

/-- Witness for C8: a client whose first call fails with `boom` yields the
converted Error message after one call. -/
theorem C8_witness :
    languageExpert_process ⟨fun _ _ => .error "boom"⟩ ".py"
        ⟨.review_request, .reviewRequest (some "a.py") (some "code") (some 1),
          "orchestrator"⟩ =
      (⟨.error, .errorPayload "boom", "language_expert_" ++ ".py"⟩, 1) :=
  C8_one_message_errors_converted.2 ⟨fun _ _ => .error "boom"⟩ ".py"
    "orchestrator" "a.py" "code" (some 1) "boom" 1 (by decide) (by decide) rfl

/-- Claim C9: an extension outside the lookup table gives a Dispatcher with
language label `Unknown` and an empty best-practice checklist, and a
well-formed request is still attempted — the model is invoked (at least
once, and with an always-answering client the response is a `Review`). -/
theorem C9_unmapped_extension_still_attempts (ext : String)
    (h : ext ∉ language_map.map Prod.fst) :
    get_language_name ext = "Unknown" ∧
    load_best_practices (get_language_name ext) = [] ∧
    (∀ (client : ModelClient) (src fp fc : String) (pr : Option Int),
      fp ≠ "" → fc ≠ "" →
      1 ≤ (languageExpert_process client ext
        ⟨.review_request, .reviewRequest (some fp) (some fc) pr, src⟩).2) ∧
    (∀ (client : ModelClient) (src fp fc : String) (pr : Option Int),
      fp ≠ "" → fc ≠ "" → (∀ s u, ∃ r, client.complete s u = .ok r) →
      (languageExpert_process client ext
        ⟨.review_request, .reviewRequest (some fp) (some fc) pr, src⟩).1.type =
        .review) := by
  have hname : get_language_name ext = "Unknown" := by
    unfold get_language_name
    rw [lookup_eq_none_of_not_mem_keys _ _ h]
    rfl
  refine ⟨hname, by rw [hname]; rfl, ?_, ?_⟩
  · intro client src fp fc pr hfp hfc
    have hguard : (truthyStr (some fp) && truthyStr (some fc)) = true := by
      simp [truthyStr, hfp, hfc]
    simp only [languageExpert_process, Content.getFilePath,
      Content.getFileContent, Content.getPrNumber]
    rw [if_pos hguard]
    rcases hrc : review_code client (get_language_name ext)
        ((some fp).getD "") ((some fc).getD "") with ⟨res, n⟩
    have := review_code_calls_pos client (get_language_name ext)
      ((some fp).getD "") ((some fc).getD "")
    rw [hrc] at this
    rcases res with e | d <;> simpa using this
  · intro client src fp fc pr hfp hfc hok
    have hguard : (truthyStr (some fp) && truthyStr (some fc)) = true := by
      simp [truthyStr, hfp, hfc]
    obtain ⟨d, hd⟩ := review_code_ok_of_total client (get_language_name ext)
      fp fc hok
    simp only [languageExpert_process, Content.getFilePath,
      Content.getFileContent, Content.getPrNumber]
    rw [if_pos hguard]
    simp [hd]

/-- Witness for C9 at the unmapped extension `.xyz` with a total client. -/
theorem C9_witness :
    get_language_name ".xyz" = "Unknown" ∧
    load_best_practices (get_language_name ".xyz") = [] ∧
    (languageExpert_process ⟨fun _ _ => .ok "fine"⟩ ".xyz"
      ⟨.review_request, .reviewRequest (some "f.xyz") (some "data") (some 3),
        "orchestrator"⟩).1.type = .review :=
  have h : ".xyz" ∉ language_map.map Prod.fst := by decide
  ⟨(C9_unmapped_extension_still_attempts ".xyz" h).1,
   (C9_unmapped_extension_still_attempts ".xyz" h).2.1,
   (C9_unmapped_extension_still_attempts ".xyz" h).2.2.2
     ⟨fun _ _ => .ok "fine"⟩ "orchestrator" "f.xyz" "data" (some 3)
     (by decide) (by decide) (fun s u => ⟨"fine", rfl⟩)⟩

/-- A successful literal step consumed exactly the literal. -/
theorem dropLit_sound (lit : List Char) :
    ∀ cs r, dropLit lit cs = some r → cs = lit ++ r := by
  induction lit with
  | nil =>
    intro cs r h
    simp only [dropLit, Option.some.injEq] at h
    simp [h]
  | cons l ls ih =>
    intro cs r h
    cases cs with
    | nil => simp [dropLit] at h
    | cons c cs' =>
      simp only [dropLit] at h
      by_cases hc : c = l
      · rw [if_pos hc] at h
        subst hc
        simpa using ih cs' r h
      · rw [if_neg hc] at h
        exact absurd h (by simp)

/-- A successful anchored match decomposes its input into the pattern's
shape. -/
theorem matchPullAt_sound (cs : List Char) (o r : String) (n : Nat)
    (h : matchPullAt cs = some (o, r, n)) :
    ∃ a b d suf : List Char, a ≠ [] ∧ b ≠ [] ∧ d ≠ [] ∧
      (∀ c ∈ a, c ≠ '/') ∧ (∀ c ∈ b, c ≠ '/') ∧ (∀ c ∈ d, c.isDigit) ∧
      cs = "github.com/".data ++ a ++ ['/'] ++ b ++ "/pull/".data ++ d ++ suf := by
  unfold matchPullAt at h
  rcases hlit : dropLit "github.com/".data cs with _ | r1
  · rw [hlit] at h
    exact absurd h (by simp)
  · rw [hlit] at h
    dsimp only at h
    by_cases ha : (r1.takeWhile (fun c => c ≠ '/')).isEmpty
    · rw [if_pos ha] at h
      exact absurd h (by simp)
    · rw [if_neg ha] at h
      rcases hsl : dropLit ['/'] (r1.dropWhile (fun c => c ≠ '/')) with _ | r3
      · rw [hsl] at h
        exact absurd h (by simp)
      · rw [hsl] at h
        dsimp only at h
        by_cases hb : (r3.takeWhile (fun c => c ≠ '/')).isEmpty
        · rw [if_pos hb] at h
          exact absurd h (by simp)
        · rw [if_neg hb] at h
          rcases hlit2 : dropLit "/pull/".data
              (r3.dropWhile (fun c => c ≠ '/')) with _ | r5
          · rw [hlit2] at h
            exact absurd h (by simp)
          · rw [hlit2] at h
            dsimp only at h
            by_cases hd : (r5.takeWhile Char.isDigit).isEmpty
            · rw [if_pos hd] at h
              exact absurd h (by simp)
            · rw [if_neg hd] at h
              refine ⟨r1.takeWhile (fun c => c ≠ '/'),
                r3.takeWhile (fun c => c ≠ '/'),
                r5.takeWhile Char.isDigit,
                r5.dropWhile Char.isDigit, ?_, ?_, ?_, ?_, ?_, ?_, ?_⟩
              · simpa [List.isEmpty_iff] using ha
              · simpa [List.isEmpty_iff] using hb
              · simpa [List.isEmpty_iff] using hd
              · intro c hc
                have := List.mem_takeWhile_imp hc
                simpa using this
              · intro c hc
                have := List.mem_takeWhile_imp hc
                simpa using this
              · intro c hc
                exact List.mem_takeWhile_imp hc
              · have e1 : cs = "github.com/".data ++ r1 :=
                  dropLit_sound _ _ _ hlit
                have e2 : r1 = r1.takeWhile (fun c => c ≠ '/') ++
                    ('/' :: r3) := by
                  conv_lhs => rw [← List.takeWhile_append_dropWhile
                    (p := fun c => c ≠ '/') (l := r1)]
                  rw [dropLit_sound _ _ _ hsl]
                  rfl
                have e3 : r3 = r3.takeWhile (fun c => c ≠ '/') ++
                    r3.dropWhile (fun c => c ≠ '/') :=
                  (List.takeWhile_append_dropWhile _ _).symm
                have e4 : r3.dropWhile (fun c => c ≠ '/') =
                    "/pull/".data ++ r5 := dropLit_sound _ _ _ hlit2
                have e5 : r5 = r5.takeWhile Char.isDigit ++
                    r5.dropWhile Char.isDigit :=
                  (List.takeWhile_append_dropWhile _ _).symm
                have s4 : r3.dropWhile (fun c => c ≠ '/') =
                    "/pull/".data ++ (r5.takeWhile Char.isDigit ++
                      r5.dropWhile Char.isDigit) :=
                  e4.trans (congrArg (fun l => "/pull/".data ++ l) e5)
                have s3 : r3 = r3.takeWhile (fun c => c ≠ '/') ++
                    ("/pull/".data ++ (r5.takeWhile Char.isDigit ++
                      r5.dropWhile Char.isDigit)) :=
                  e3.trans (congrArg
                    (fun l => r3.takeWhile (fun c => c ≠ '/') ++ l) s4)
                have s1 : r1 = r1.takeWhile (fun c => c ≠ '/') ++
                    ('/' :: (r3.takeWhile (fun c => c ≠ '/') ++
                      ("/pull/".data ++ (r5.takeWhile Char.isDigit ++
                        r5.dropWhile Char.isDigit)))) :=
                  e2.trans (congrArg
                    (fun l => r1.takeWhile (fun c => c ≠ '/') ++ ('/' :: l)) s3)
                have s0 := e1.trans
                  (congrArg (fun l => "github.com/".data ++ l) s1)
                rw [s0]
                simp [List.append_assoc]

/-- A successful search implies the string contains the pattern. -/
theorem searchPull_sound : ∀ (cs : List Char) (o r : String) (n : Nat),
    searchPull cs = some (o, r, n) →
    ∃ pre a b d suf : List Char, a ≠ [] ∧ b ≠ [] ∧ d ≠ [] ∧
      (∀ c ∈ a, c ≠ '/') ∧ (∀ c ∈ b, c ≠ '/') ∧ (∀ c ∈ d, c.isDigit) ∧
      cs = pre ++ "github.com/".data ++ a ++ ['/'] ++ b ++
        "/pull/".data ++ d ++ suf := by
  intro cs
  induction cs with
  | nil => intro o r n h; simp [searchPull] at h
  | cons c cs' ih =>
    intro o r n h
    unfold searchPull at h
    rcases hm : matchPullAt (c :: cs') with _ | trip
    · rw [hm] at h
      obtain ⟨pre, a, b, d, suf, h1, h2, h3, h4, h5, h6, h7⟩ := ih o r n h
      exact ⟨c :: pre, a, b, d, suf, h1, h2, h3, h4, h5, h6, by simp [h7]⟩
    · rw [hm] at h
      rcases h with ⟨⟩
      obtain ⟨a, b, d, suf, h1, h2, h3, h4, h5, h6, h7⟩ :=
        matchPullAt_sound (c :: cs') o r n hm
      exact ⟨[], a, b, d, suf, h1, h2, h3, h4, h5, h6, by simpa using h7⟩

/-- Claim C5: `extract_repo_info` returns `("acme", "widgets", 42)` on the
canonical URL, and on every URL with no substring matching
`github.com/<owner>/<repo>/pull/<digits>` it raises `Invalid GitHub PR URL`
(the `ValueError`) instead of returning. -/
theorem C5_extract_repo_info :
    extract_repo_info "https://github.com/acme/widgets/pull/42" =
      .ok ("acme", "widgets", 42) ∧
    ∀ url : String, ¬ containsPullPattern url →
      extract_repo_info url = .error "Invalid GitHub PR URL" := by
  refine ⟨rfl, ?_⟩
  intro url hnc
  unfold extract_repo_info
  rcases hs : searchPull url.data with _ | trip
  · rfl
  · exfalso
    rcases trip with ⟨o, r, n⟩
    obtain ⟨pre, a, b, d, suf, h1, h2, h3, h4, h5, h6, h7⟩ :=
      searchPull_sound url.data o r n hs
    exact hnc ⟨pre, a, b, d, suf, h1, h2, h3, h4, h5, h6, by simpa using h7⟩

/-- Witness for C5: the empty string contains no match (by a length count),
so `extract_repo_info` raises. -/
theorem C5_witness :
    extract_repo_info "" = .error "Invalid GitHub PR URL" :=
  C5_extract_repo_info.2 "" (by
    rintro ⟨pre, a, b, d, suf, ha, hb, hd, -, -, -, heq⟩
    have h0 : ("".data) = ([] : List Char) := rfl
    rw [h0] at heq
    have hlen := congrArg List.length heq
    simp only [List.length_append, List.length_cons, List.length_nil] at hlen
    have hA : 0 < a.length := List.length_pos.mpr ha
    omega)

/-- Membership under the running first-occurrence fold. -/
theorem occKeys_foldl_mem (xs : List String) :
    ∀ (acc : List String) (a : String),
      (a ∈ xs.foldl (fun acc e => if e ∈ acc then acc else acc ++ [e]) acc) ↔
        (a ∈ acc ∨ a ∈ xs) := by
  induction xs with
  | nil => intro acc a; simp
  | cons x xs ih =>
    intro acc a
    simp only [List.foldl_cons]
    by_cases hx : x ∈ acc
    · rw [if_pos hx, ih]
      constructor
      · rintro (h | h)
        · exact Or.inl h
        · exact Or.inr (List.mem_cons_of_mem _ h)
      · rintro (h | h)
        · exact Or.inl h
        · rcases List.mem_cons.mp h with h | h
          · subst h; exact Or.inl hx
          · exact Or.inr h
    · rw [if_neg hx, ih]
      simp only [List.mem_append, List.mem_singleton, List.mem_cons]
      tauto

/-- The first-occurrence key list has the same members as its input. -/
theorem occKeys_mem (xs : List String) (a : String) :
    a ∈ occKeys xs ↔ a ∈ xs := by
  unfold occKeys
  rw [occKeys_foldl_mem]
  simp

/-- The first-occurrence fold preserves nodup accumulators. -/
theorem occKeys_foldl_nodup (xs : List String) :
    ∀ acc : List String, acc.Nodup →
      (xs.foldl (fun acc e => if e ∈ acc then acc else acc ++ [e]) acc).Nodup := by
  induction xs with
  | nil => intro acc h; simpa using h
  | cons x xs ih =>
    intro acc h
    simp only [List.foldl_cons]
    by_cases hx : x ∈ acc
    · rw [if_pos hx]; exact ih acc h
    · rw [if_neg hx]
      refine ih _ ?_
      rw [List.nodup_append]
      exact ⟨h, List.nodup_singleton x, List.disjoint_singleton.2 hx⟩

/-- The first-occurrence key list has no duplicates. -/
theorem occKeys_nodup (xs : List String) : (occKeys xs).Nodup :=
  occKeys_foldl_nodup xs [] List.nodup_nil

/-- Unfolding `occKeys` over a snoc. -/
theorem occKeys_snoc (xs : List String) (e : String) :
    occKeys (xs ++ [e]) =
      if e ∈ occKeys xs then occKeys xs else occKeys xs ++ [e] := by
  unfold occKeys
  rw [List.foldl_append]
  rfl

/-- Unfolding `groupByLanguage` over a snoc. -/
theorem groupByLanguage_snoc (l : List String) (f : String) :
    groupByLanguage (l ++ [f]) =
      addFileToGroup (groupByLanguage l) (get_file_extension f) f := by
  unfold groupByLanguage
  rw [List.foldl_append]
  rfl

/-- The key column of the spec-side grouping. -/
theorem specGrouping_fst (l : List String) :
    (specGrouping l).map Prod.fst = occKeys (l.map get_file_extension) := by
  unfold specGrouping
  rw [List.map_map]
  have h : (Prod.fst ∘ fun e =>
      (e, List.filter (fun x => get_file_extension x = e) l)) = id := rfl
  rw [h, List.map_id]

/-- The classifier's insertion-ordered grouping loop refines the spec-side
description: keys in first-occurrence order, each group the in-order filter
of the input by that extension. -/
theorem groupByLanguage_eq_specGrouping (l : List String) :
    groupByLanguage l = specGrouping l := by
  induction l using List.reverseRecOn with
  | nil => rfl
  | append_singleton l f ih =>
    rw [groupByLanguage_snoc, ih]
    unfold addFileToGroup
    by_cases hE : get_file_extension f ∈ occKeys (l.map get_file_extension)
    · have hany : (specGrouping l).any
          (fun p => p.1 = get_file_extension f) = true := by
        rw [List.any_eq_true]
        refine ⟨(get_file_extension f,
          l.filter (fun x => get_file_extension x = get_file_extension f)), ?_, by simp⟩
        unfold specGrouping
        exact List.mem_map_of_mem _ hE
      rw [if_pos hany]
      unfold specGrouping
      rw [List.map_map, List.map_append, List.map_singleton, occKeys_snoc,
        if_pos hE]
      apply List.map_congr_left
      intro e he
      simp only [Function.comp]
      by_cases hee : e = get_file_extension f
      · subst hee
        rw [if_pos (by simp)]
        simp [List.filter_append]
      · rw [if_neg (by simpa using hee)]
        simp only [List.filter_append]
        have hone : ([f].filter (fun x => get_file_extension x = e)) = [] := by
          rw [List.filter_eq_nil_iff]
          intro x hx
          rcases List.mem_singleton.mp hx
          simpa using fun hc => hee hc.symm
        rw [hone, List.append_nil]
    · have hany : (specGrouping l).any
          (fun p => p.1 = get_file_extension f) = false := by
        rw [List.any_eq_false]
        rintro ⟨e, g⟩ hmem
        unfold specGrouping at hmem
        rcases List.mem_map.mp hmem with ⟨e', he', heq⟩
        rcases heq
        simp only [decide_eq_true_eq]
        intro hee
        exact hE (hee ▸ he')
      rw [if_neg (by simp [hany])]
      unfold specGrouping
      rw [List.map_append, List.map_singleton, occKeys_snoc, if_neg hE,
        List.map_append]
      congr 1
      · apply List.map_congr_left
        intro e he
        have hne : get_file_extension f ≠ e := fun hc => hE (hc ▸ he)
        rw [List.filter_append]
        have hone : ([f].filter (fun x => get_file_extension x = e)) = [] := by
          rw [List.filter_eq_nil_iff]
          intro x hx
          rcases List.mem_singleton.mp hx
          simpa using fun hc => hne hc
        rw [hone, List.append_nil]
      · have hnil : l.filter
            (fun x => get_file_extension x = get_file_extension f) = [] := by
          rw [List.filter_eq_nil_iff]
          intro x hx hpx
          apply hE
          rw [occKeys_mem]
          exact List.mem_map.mpr ⟨x, hx, by simpa using hpx⟩
        simp [List.filter_append, hnil]

/-- Sum of an indicator over a duplicate-free key list. -/
theorem sum_map_ite_eq (K : List String) (E : String) (c : Nat)
    (hnd : K.Nodup) :
    (K.map (fun e => if E = e then c else 0)).sum = if E ∈ K then c else 0 := by
  induction K with
  | nil => simp
  | cons k K ih =>
    rw [List.nodup_cons] at hnd
    simp only [List.map_cons, List.sum_cons]
    by_cases hEk : E = k
    · subst hEk
      rw [if_pos rfl, ih hnd.2, if_neg hnd.1, if_pos (List.mem_cons_self _ _),
        Nat.add_zero]
    · rw [if_neg hEk, ih hnd.2, Nat.zero_add]
      by_cases hEK : E ∈ K
      · rw [if_pos hEK, if_pos (List.mem_cons_of_mem _ hEK)]
      · rw [if_neg hEK, if_neg (by simp [List.mem_cons, hEk, hEK])]

/-- No file is duplicated or dropped: for every path, the concatenation of
the groups carries it exactly as often as the filtered input does. -/
theorem specGrouping_count (l : List String) (f : String) :
    (((specGrouping l).map Prod.snd).flatten).count f = l.count f := by
  unfold specGrouping
  rw [List.map_map, List.count_flatten, List.map_map]
  have h : ∀ e ∈ occKeys (l.map get_file_extension),
      ((List.count f ∘ Prod.snd ∘ fun e =>
        (e, List.filter (fun x => get_file_extension x = e) l)) e) =
      (fun e => if get_file_extension f = e then l.count f else 0) e := by
    intro e he
    simp only [Function.comp]
    by_cases hp : get_file_extension f = e
    · rw [if_pos hp]
      exact List.count_filter (by simp [hp])
    · rw [if_neg hp]
      rw [List.count_eq_zero]
      intro hmem
      exact hp (by simpa using List.of_mem_filter hmem)
  rw [List.map_congr_left h,
    sum_map_ite_eq _ _ _ (occKeys_nodup (l.map get_file_extension))]
  by_cases hf : f ∈ l
  · rw [if_pos ((occKeys_mem _ _).mpr (List.mem_map_of_mem _ hf))]
  · rw [List.count_eq_zero.mpr hf]
    split <;> rfl

/-- Every filtered file lies in exactly one language group. -/
theorem specGrouping_unique_group (l : List String) (f : String)
    (hf : f ∈ l) :
    ((specGrouping l).filter (fun p => p.2.contains f)).length = 1 := by
  unfold specGrouping
  rw [← List.countP_eq_length_filter, List.countP_map]
  have h : List.countP ((fun p => (p.2.contains f : Bool)) ∘ fun e =>
      (e, List.filter (fun x => get_file_extension x = e) l))
      (occKeys (l.map get_file_extension)) =
    List.countP (fun e => e == get_file_extension f)
      (occKeys (l.map get_file_extension)) := by
    apply List.countP_congr
    intro e he
    simp only [Function.comp, List.contains_iff_exists_mem_beq, beq_iff_eq]
    constructor
    · rintro ⟨x, hx, rfl⟩
      have := List.of_mem_filter hx
      simpa [eq_comm] using this
    · intro hee
      exact ⟨f, List.mem_filter.mpr ⟨hf, by simpa using hee.symm⟩, rfl⟩
  rw [h]
  have hmem : get_file_extension f ∈ occKeys (l.map get_file_extension) :=
    (occKeys_mem _ _).mpr (List.mem_map_of_mem _ hf)
  exact List.count_eq_one_of_mem (occKeys_nodup _) hmem

/-- Claim C6: for every file list whose filtered remainder is non-empty, the
Classifier emits exactly one `FileAnalysis` message; its `files_by_language`
mapping equals the spec-side grouping (languages in first-occurrence order of
their first matching file, groups the in-order filters of the input), the
groups together carry exactly the surviving files (same multiset, none
duplicated or dropped), and each surviving file lies in exactly one group. -/
theorem C6_classifier_grouping (files : List String) (pr : Option Int)
    (src : String) (h : files.filter is_relevant_file ≠ []) :
    fileAnalyzer_process ⟨.file_analysis, .files files pr, src⟩ =
      [⟨.file_analysis,
        .filesByLanguage (groupByLanguage (files.filter is_relevant_file)) pr,
        "file_analyzer"⟩] ∧
    groupByLanguage (files.filter is_relevant_file) =
      specGrouping (files.filter is_relevant_file) ∧
    (∀ f : String,
      (((groupByLanguage (files.filter is_relevant_file)).map
        Prod.snd).flatten).count f = (files.filter is_relevant_file).count f) ∧
    (∀ f ∈ files.filter is_relevant_file,
      ((groupByLanguage (files.filter is_relevant_file)).filter
        (fun p => p.2.contains f)).length = 1) := by
  have hne : files ≠ [] := by
    intro hnil
    rw [hnil] at h
    exact h rfl
  refine ⟨?_, groupByLanguage_eq_specGrouping _, ?_, ?_⟩
  · unfold fileAnalyzer_process
    simp only [Content.getFiles, Content.getPrNumber]
    rw [if_neg (by simpa [List.isEmpty_iff] using hne),
      if_neg (by simpa [List.isEmpty_iff] using h)]
  · intro f
    rw [groupByLanguage_eq_specGrouping]
    exact specGrouping_count _ f
  · intro f hf
    rw [groupByLanguage_eq_specGrouping]
    exact specGrouping_unique_group _ f hf

/-- Witness for C6 at a concrete mixed file list. -/
theorem C6_witness :
    fileAnalyzer_process ⟨.file_analysis,
        .files ["src/app.py", "logo.png", "node_modules/x.js", "b.js", "c.py"]
          (some 5), "orchestrator"⟩ =
      [⟨.file_analysis,
        .filesByLanguage
          (groupByLanguage (["src/app.py", "logo.png", "node_modules/x.js",
            "b.js", "c.py"].filter is_relevant_file)) (some 5),
        "file_analyzer"⟩] :=
  (C6_classifier_grouping _ _ _ (by decide)).1

/-- One step of the generator fold. -/
theorem foldEvents_cons {α : Type}
    (g : ReportState → α → ReportState × List String)
    (st : ReportState) (evs : List String) (a : α) (l : List α) :
    foldEvents g (st, evs) (a :: l) =
      foldEvents g ((g st a).1, evs ++ (g st a).2) l := rfl

/-- Events already emitted persist through the generator fold. -/
theorem foldEvents_mono {α : Type}
    (g : ReportState → α → ReportState × List String)
    (l : List α) (ev : String) :
    ∀ (st : ReportState) (evs : List String), ev ∈ evs →
      ev ∈ (foldEvents g (st, evs) l).2 := by
  induction l with
  | nil => intro st evs h; exact h
  | cons a l ih =>
    intro st evs h
    rw [foldEvents_cons]
    exact ih _ _ (List.mem_append.mpr (Or.inl h))

/-- An event that item `x` emits in every aggregator state appears in the
fold's output whenever `x` is processed. -/
theorem foldEvents_mem {α : Type}
    (g : ReportState → α → ReportState × List String)
    (l : List α) (x : α) (ev : String)
    (hev : ∀ s, ev ∈ (g s x).2) :
    ∀ (st : ReportState) (evs : List String), x ∈ l →
      ev ∈ (foldEvents g (st, evs) l).2 := by
  induction l with
  | nil => intro st evs hx; cases hx
  | cons a l ih =>
    intro st evs hx
    rw [foldEvents_cons]
    rcases List.mem_cons.mp hx with rfl | hx'
    · exact foldEvents_mono _ _ _ _ _ (List.mem_append.mpr (Or.inr (hev st)))
    · exact ih _ _ hx'

/-- Counting events through the generator fold when every item's count is
independent of the aggregator state. -/
theorem foldEvents_countP {α : Type}
    (g : ReportState → α → ReportState × List String)
    (p : String → Bool) (k : α → Nat) :
    ∀ l : List α, (∀ s a, a ∈ l → ((g s a).2).countP p = k a) →
    ∀ (st : ReportState) (evs : List String),
      ((foldEvents g (st, evs) l).2).countP p =
        evs.countP p + (l.map k).sum := by
  intro l
  induction l with
  | nil => intro hk st evs; simp [foldEvents]
  | cons a l ih =>
    intro hk st evs
    rw [foldEvents_cons,
      ih (fun s a' ha => hk s a' (List.mem_cons_of_mem _ ha)),
      List.countP_append, hk st a (List.mem_cons_self _ _),
      List.map_cons, List.sum_cons]
    omega

/-- A file whose content fetch is truthy always gets its `Analyzing` event,
whatever the aggregator state and the expert's answer. -/
theorem handleFile_analyzing_mem (env : GithubEnv) (client : ModelClient)
    (pr : Option Int) (ext f c : String)
    (hc : env.file_content f = some c) (hc' : c ≠ "") :
    ∀ st : ReportState,
      ("Analyzing " ++ f) ∈ (handleFile env client pr ext st f).2 := by
  intro st
  unfold handleFile
  rw [hc]
  dsimp only
  rw [if_neg hc']
  split <;> simp

/-- A file for which the expert answers an Error message gets its per-file
error event, whatever the aggregator state. -/
theorem handleFile_error_mem (env : GithubEnv) (client : ModelClient)
    (pr : Option Int) (ext f c e : String)
    (hc : env.file_content f = some c) (hc' : c ≠ "")
    (he : (languageExpert_process client ext (mkReviewRequest f c pr)).1 =
      ⟨.error, .errorPayload e, "language_expert_" ++ ext⟩) :
    ∀ st : ReportState,
      ("Error analyzing " ++ f ++ ": " ++ e) ∈
        (handleFile env client pr ext st f).2 := by
  intro st
  unfold handleFile
  rw [hc]
  dsimp only
  rw [if_neg hc', he]
  simp [Content.getErrorD]

/-- Claim C2: if the Dispatcher answers a file of some language group with an
Error message, the orchestrator's group handler emits that error as a
progress event, and every other fetchable file of every group still gets its
`Analyzing` event — a per-file failure never aborts the run. -/
theorem C2_per_file_error_isolated (env : GithubEnv) (client : ModelClient)
    (pr : Option Int) (st : ReportState)
    (fbl : List (String × List String)) (prm : Option Int) (src : String)
    (ext : String) (files : List String) (f c e : String)
    (hgrp : (ext, files) ∈ fbl) (hf : f ∈ files)
    (hc : env.file_content f = some c) (hc' : c ≠ "")
    (he : (languageExpert_process client ext (mkReviewRequest f c pr)).1 =
      ⟨.error, .errorPayload e, "language_expert_" ++ ext⟩) :
    ("Error analyzing " ++ f ++ ": " ++ e) ∈
      (handleFileAnalysis env client pr st
        ⟨.file_analysis, .filesByLanguage fbl prm, src⟩).2 ∧
    (∀ (ext2 : String) (files2 : List String) (f2 c2 : String),
      (ext2, files2) ∈ fbl → f2 ∈ files2 →
      env.file_content f2 = some c2 → c2 ≠ "" →
      ("Analyzing " ++ f2) ∈
        (handleFileAnalysis env client pr st
          ⟨.file_analysis, .filesByLanguage fbl prm, src⟩).2) := by
  have hne : fbl.isEmpty = false := by
    cases fbl
    · cases hgrp
    · rfl
  constructor
  · unfold handleFileAnalysis
    simp only [Content.getFilesByLanguage]
    rw [if_neg (by simp [hne])]
    refine foldEvents_mem _ _ (ext, files) _ ?_ _ _ hgrp
    intro s
    unfold handleGroup
    exact foldEvents_mem _ _ f _
      (handleFile_error_mem env client pr ext f c e hc hc' he) _ _ hf
  · intro ext2 files2 f2 c2 hgrp2 hf2 hc2 hc2'
    unfold handleFileAnalysis
    simp only [Content.getFilesByLanguage]
    rw [if_neg (by simp [hne])]
    refine foldEvents_mem _ _ (ext2, files2) _ ?_ _ _ hgrp2
    intro s
    unfold handleGroup
    exact foldEvents_mem _ _ f2 _
      (handleFile_analyzing_mem env client pr ext2 f2 c2 hc2 hc2') _ _ hf2

/-- A model client whose every call fails. -/
def failingClient : ModelClient := ⟨fun _ _ => .error "boom"⟩

/-- A two-file source-control environment for concrete runs. -/
def envTwoFiles : GithubEnv :=
  ⟨.ok ["a.py", "b.py"],
   fun f => if f = "a.py" then some "print(1)"
     else if f = "b.py" then some "print(2)" else none⟩

/-- Witness for C2: with a failing model client, `a.py`'s failure is emitted
as an error event and `b.py` is still processed. -/
theorem C2_witness :
    ("Error analyzing " ++ "a.py" ++ ": " ++ "boom") ∈
      (handleFileAnalysis envTwoFiles failingClient (some 1) []
        ⟨.file_analysis, .filesByLanguage [(".py", ["a.py", "b.py"])] (some 1),
          "file_analyzer"⟩).2 ∧
    ("Analyzing " ++ "b.py") ∈
      (handleFileAnalysis envTwoFiles failingClient (some 1) []
        ⟨.file_analysis, .filesByLanguage [(".py", ["a.py", "b.py"])] (some 1),
          "file_analyzer"⟩).2 :=
  ⟨(C2_per_file_error_isolated envTwoFiles failingClient (some 1) []
      [(".py", ["a.py", "b.py"])] (some 1) "file_analyzer"
      ".py" ["a.py", "b.py"] "a.py" "print(1)" "boom"
      (by simp) (by simp) rfl (by decide) rfl).1,
   (C2_per_file_error_isolated envTwoFiles failingClient (some 1) []
      [(".py", ["a.py", "b.py"])] (some 1) "file_analyzer"
      ".py" ["a.py", "b.py"] "a.py" "print(1)" "boom"
      (by simp) (by simp) rfl (by decide) rfl).2
     ".py" ["a.py", "b.py"] "b.py" "print(2)" (by simp) (by simp) rfl
     (by decide)⟩

/-- A source-control environment whose PR has no changed files. -/
def emptyEnv : GithubEnv := ⟨.ok [], fun _ => none⟩

/-- Counterexample for claim C4: the URL
`https://github.com/acme/widgets/tree/42` does not match
`github.com/<owner>/<repo>/pull/<number>` (its next-to-last segment is
`tree`), yet `review_pr`'s parsing step accepts it — `parts[3]/parts[4]`
and `int(parts[-1])` never check the `pull` segment — and the run goes on
to consult the source-control client (`sc_calls = 1`), instead of failing
fast at URL parsing with no external call. -/
theorem C4_counterexample :
    extract_repo_name "https://github.com/acme/widgets/tree/42" =
      some "acme/widgets" ∧
    extract_pr_number "https://github.com/acme/widgets/tree/42" = some 42 ∧
    review_pr emptyEnv failingClient
        "https://github.com/acme/widgets/tree/42" =
      ⟨["Initializing PR Review", "Extracting PR information",
        "Fetching PR from GitHub", "Fetching PR files",
        "No files found to analyze"], 1⟩ :=
  ⟨by decide, by decide, rfl⟩

/-- Claim C4 as amended: `review_pr` fails fast before any source-control
call exactly when its own parsing raises — fewer than five slash-separated
segments (`IndexError` from `parts[3]`/`parts[4]`) or a final segment that is
not a Python integer literal (`ValueError` from `int`); the `pull` segment is
never validated. In the failing cases the run emits the caught exception as
its final event and makes zero source-control calls. -/
theorem C4_parse_failure_fails_fast (env : GithubEnv) (client : ModelClient)
    (url : String)
    (h : extract_repo_name url = none ∨ extract_pr_number url = none) :
    (review_pr env client url).sc_calls = 0 ∧
    ∃ e, (review_pr env client url).events =
      ["Initializing PR Review", "Extracting PR information",
       "Error during PR review: " ++ e] := by
  rcases hrn : extract_repo_name url with _ | repo
  · unfold review_pr
    rw [hrn]
    exact ⟨rfl, "list index out of range", rfl⟩
  · rcases h with h | h
    · rw [hrn] at h
      cases h
    · unfold review_pr
      rw [hrn, h]
      exact ⟨rfl, "invalid literal for int() with base 10: " ++
        (pySplitSlash url).getLastD "", rfl⟩

/-- Witness for the amended C4 at the malformed URL `nope`. -/
theorem C4_witness :
    (review_pr emptyEnv failingClient "nope").sc_calls = 0 ∧
    ∃ e, (review_pr emptyEnv failingClient "nope").events =
      ["Initializing PR Review", "Extracting PR information",
       "Error during PR review: " ++ e] :=
  C4_parse_failure_fails_fast emptyEnv failingClient "nope"
    (Or.inl (by decide))

/-- A string whose first character is not a brace is not a report event. -/
theorem isReviewEvent_false_of_head (s : String) (c : Char)
    (h : s.data.head? = some c) (hc : c ≠ '\x7b') :
    isReviewEvent s = false := by
  unfold isReviewEvent
  rw [h]
  simp [hc]

/-- The JSON review event always starts with a brace. -/
theorem isReviewEvent_json (s : String) :
    isReviewEvent (jsonReviewMessage s) = true := by
  unfold jsonReviewMessage isReviewEvent
  have h : ("\x7b\"type\": \"review\", \"message\": \"").data.head? =
      some '\x7b' := rfl
  simp [String.data_append, List.head?_append, h]

/-- The per-file `Analyzing` event is not a report event. -/
theorem isReviewEvent_analyzing (f : String) :
    isReviewEvent ("Analyzing " ++ f) = false := by
  refine isReviewEvent_false_of_head _ 'A' ?_ (by decide)
  have h : ("Analyzing ").data.head? = some 'A' := rfl
  simp [String.data_append, List.head?_append, h]

/-- The per-file error event is not a report event. -/
theorem isReviewEvent_error_analyzing (f e : String) :
    isReviewEvent ("Error analyzing " ++ f ++ ": " ++ e) = false := by
  refine isReviewEvent_false_of_head _ 'E' ?_ (by decide)
  have h : ("Error analyzing ").data.head? = some 'E' := rfl
  simp [String.data_append, List.head?_append, h]

/-- The aggregator error event is not a report event. -/
theorem isReviewEvent_error_report (e : String) :
    isReviewEvent ("Error generating report: " ++ e) = false := by
  refine isReviewEvent_false_of_head _ 'E' ?_ (by decide)
  have h : ("Error generating report: ").data.head? = some 'E' := rfl
  simp [String.data_append, List.head?_append, h]

/-- The group header event is not a report event. -/
theorem isReviewEvent_processing (n : Nat) (ext : String) :
    isReviewEvent ("Processing " ++ toString n ++ " " ++ ext ++ " files") =
      false := by
  refine isReviewEvent_false_of_head _ 'P' ?_ (by decide)
  have h : ("Processing ").data.head? = some 'P' := rfl
  simp [String.data_append, List.head?_append, h]

/-- A `Review`-typed dispatcher response always carries a review payload. -/
theorem languageExpert_review_shape (client : ModelClient) (ext : String)
    (msg : Message)
    (h : (languageExpert_process client ext msg).1.type = .review) :
    ∃ fp rd prn, (languageExpert_process client ext msg).1 =
      ⟨.review, .reviewPayload fp rd prn, "language_expert_" ++ ext⟩ := by
  rcases msg with ⟨t, c, s⟩
  cases t
  case review_request =>
    unfold languageExpert_process at h ⊢
    dsimp only at h ⊢
    by_cases hguard :
        (truthyStr c.getFilePath && truthyStr c.getFileContent) = true
    · rw [if_pos hguard] at h ⊢
      revert h
      rcases review_code client (get_language_name ext)
          (c.getFilePath.getD "") (c.getFileContent.getD "") with ⟨e | d, n⟩
      · intro h
        have hne : MessageType.error ≠ MessageType.review := by decide
        exact absurd h hne
      · intro h
        exact ⟨_, d, _, rfl⟩
    · rw [if_neg hguard] at h
      exact absurd h (by simp)
  all_goals exact absurd h (by simp [languageExpert_process])

/-- Indicator sums count filtered elements. -/
theorem sum_map_indicator {α : Type} (p : α → Bool) (l : List α) :
    (l.map (fun a => if p a then 1 else 0)).sum = (l.filter p).length := by
  induction l with
  | nil => rfl
  | cons a l ih =>
    cases hp : p a <;> simp [List.filter_cons, hp, ih, Nat.add_comm]

/-- Per-file report-event count: one JSON review event iff the file is
successfully reviewed, independently of the aggregator state. -/
theorem handleFile_review_count (env : GithubEnv) (client : ModelClient)
    (pr : Option Int) (ext f : String) :
    ∀ st, ((handleFile env client pr ext st f).2).countP isReviewEvent =
      if fileReviewOk env client pr ext f then 1 else 0 := by
  intro st
  unfold handleFile fileReviewOk
  rcases hc : env.file_content f with _ | c
  · simp
  · dsimp only
    by_cases hc' : c = ""
    · simp [hc']
    · rw [if_neg hc', if_neg hc']
      cases htype : (languageExpert_process client ext
          (mkReviewRequest f c pr)).1.type with
      | review =>
        obtain ⟨fp, rd, prn, hshape⟩ :=
          languageExpert_review_shape client ext (mkReviewRequest f c pr) htype
        rw [hshape]
        simp [reportAnalyzer_process, reportResponseEvents,
          isReviewEvent_json, isReviewEvent_analyzing]
      | error =>
        simp [isReviewEvent_analyzing, isReviewEvent_error_analyzing]
      | file_analysis => simp [isReviewEvent_analyzing]
      | review_request => simp [isReviewEvent_analyzing]
      | report => simp [isReviewEvent_analyzing]

/-- Per-group report-event count: one JSON review event per successfully
reviewed file of the group. -/
theorem handleGroup_review_count (env : GithubEnv) (client : ModelClient)
    (pr : Option Int) (ext : String) (files : List String) :
    ∀ st, ((handleGroup env client pr st ext files).2).countP isReviewEvent =
      (files.filter (fileReviewOk env client pr ext)).length := by
  intro st
  unfold handleGroup
  rw [foldEvents_countP (handleFile env client pr ext) isReviewEvent
      (fun f => if fileReviewOk env client pr ext f then 1 else 0) files
      (fun s a _ => handleFile_review_count env client pr ext a s) st _,
    sum_map_indicator]
  simp [List.countP_cons, isReviewEvent_processing]

/-- Run-level report-event count over all language groups. -/
theorem handleFileAnalysis_review_count (env : GithubEnv)
    (client : ModelClient) (pr : Option Int)
    (fbl : List (String × List String)) (prm : Option Int) (src : String) :
    ∀ st, ((handleFileAnalysis env client pr st
        ⟨.file_analysis, .filesByLanguage fbl prm, src⟩).2).countP
        isReviewEvent = successCount env client pr fbl := by
  intro st
  unfold handleFileAnalysis
  simp only [Content.getFilesByLanguage]
  by_cases hne : fbl.isEmpty
  · rw [if_pos hne]
    have hnil : fbl = [] := by rwa [List.isEmpty_iff] at hne
    subst hnil
    simp [successCount]
  · rw [if_neg hne]
    rw [foldEvents_countP _ isReviewEvent
        (fun p => (p.2.filter (fileReviewOk env client pr p.1)).length) fbl
        (fun s a _ => handleGroup_review_count env client pr a.1 a.2 s) st []]
    simp [successCount]

/-- Claim C3 as amended: in a run that parses its URL, obtains a non-empty
file list and has at least one file survive filtering, the aggregator's
consolidated report is emitted once per successfully reviewed file — during
group processing, not after it — and the terminal progress event is the
completion message `Review completed successfully`, not the report. -/
theorem C3_report_emitted_per_reviewed_file (env : GithubEnv)
    (client : ModelClient) (url repo : String) (pr : Int)
    (files : List String)
    (h1 : extract_repo_name url = some repo)
    (h2 : extract_pr_number url = some pr)
    (h3 : env.pr_files = .ok files)
    (h4 : files.filter is_relevant_file ≠ []) :
    (review_pr env client url).events.getLast? =
      some "Review completed successfully" ∧
    ((review_pr env client url).events).countP isReviewEvent =
      successCount env client (some pr)
        (groupByLanguage (files.filter is_relevant_file)) := by
  have hne : files.isEmpty = false := by
    cases files with
    | nil => exact absurd rfl h4
    | cons a l => rfl
  have hresp : fileAnalyzer_process
      ⟨.file_analysis, .files files (some pr), "orchestrator"⟩ =
      [⟨.file_analysis, .filesByLanguage
        (groupByLanguage (files.filter is_relevant_file)) (some pr),
        "file_analyzer"⟩] := by
    unfold fileAnalyzer_process
    simp only [Content.getFiles, Content.getPrNumber]
    rw [if_neg (by simp [hne]), if_neg (by simpa [List.isEmpty_iff] using h4)]
  unfold review_pr
  rw [h1, h2, h3]
  dsimp only
  rw [if_neg (by simp [hne]), hresp]
  dsimp only [List.foldl_cons, List.foldl_nil]
  constructor
  · exact List.getLast?_concat _
  · have hcount := handleFileAnalysis_review_count env client (some pr)
      (groupByLanguage (files.filter is_relevant_file)) (some pr)
      "file_analyzer" []
    have e1 : isReviewEvent "Initializing PR Review" = false := rfl
    have e2 : isReviewEvent "Extracting PR information" = false := rfl
    have e3 : isReviewEvent "Fetching PR from GitHub" = false := rfl
    have e4 : isReviewEvent "Fetching PR files" = false := rfl
    have e5 : isReviewEvent "Processing file analysis results" = false := rfl
    have e6 : isReviewEvent "Review completed successfully" = false := rfl
    simp [List.countP_append, List.countP_cons, hcount, e1, e2, e3, e4, e5, e6]

/-- A model client that always answers. -/
def okClient : ModelClient := ⟨fun _ _ => .ok "fine"⟩

/-- Counterexample for claim C3: a run over two reviewable files in which
both reviews succeed emits the aggregator's report event twice — once per
reviewed file, inside group processing — and the terminal element of the
progress sequence is the completion message, not the report. So the report
is neither emitted exactly once, nor after all groups complete, nor as the
terminal event. -/
theorem C3_counterexample :
    ((review_pr envTwoFiles okClient
        "https://github.com/acme/widgets/pull/42").events).countP
      isReviewEvent = 2 ∧
    ((review_pr envTwoFiles okClient
        "https://github.com/acme/widgets/pull/42").events).getLast? =
      some "Review completed successfully" ∧
    isReviewEvent "Review completed successfully" = false ∧
    successCount envTwoFiles okClient (some 42)
      (groupByLanguage (["a.py", "b.py"].filter is_relevant_file)) = 2 :=
  ⟨rfl, rfl, rfl, rfl⟩

/-- Witness for the amended C3 at a concrete successful two-file run. -/
theorem C3_witness :
    (review_pr envTwoFiles okClient
        "https://github.com/acme/widgets/pull/42").events.getLast? =
      some "Review completed successfully" ∧
    ((review_pr envTwoFiles okClient
        "https://github.com/acme/widgets/pull/42").events).countP
      isReviewEvent =
      successCount envTwoFiles okClient (some 42)
        (groupByLanguage (["a.py", "b.py"].filter is_relevant_file)) :=
  C3_report_emitted_per_reviewed_file envTwoFiles okClient
    "https://github.com/acme/widgets/pull/42" "acme/widgets" 42
    ["a.py", "b.py"] (by decide) (by decide) rfl (by decide)
